import Mathlib

/-!
Shallow embedding of the resume-builder backend (`main.py`) and proofs about
its request-processing logic: input validation of `/generate`, the heuristic
content generator `simple_ai_generate` with its `keywords` extraction, the
`/upload/extract-text` routing, and the user/session/profile store operations
used by `/auth/signin`, `POST /profile` and `GET /profile/{slug}`.

Python strings are modelled as Lean `String`s; `str.strip`, `str.split`,
`str.splitlines` and `str.lower` are embedded over the ASCII/common-Unicode
character classes Python uses. Machine randomness (`uuid.uuid4`) is modelled
as an explicit supply of draws carried in the application state, and the
document store (an external collaborator configured outside this file) as
lists of documents with first-match lookup, append-on-insert and
update-first-match semantics.
-/

namespace ResumeBuilder

/-- Python `str.isspace` characters relevant to `strip`/`split`: ASCII
whitespace, the separator control characters, NEL, NBSP and the Unicode
space separators. -/
def pyIsSpace (c : Char) : Bool :=
  let n := c.toNat
  n == 32 || (9 ≤ n && n ≤ 13) || (28 ≤ n && n ≤ 31) || n == 133 || n == 160 ||
  n == 0x1680 || (0x2000 ≤ n && n ≤ 0x200a) || n == 0x2028 || n == 0x2029 ||
  n == 0x202f || n == 0x205f || n == 0x3000

/-- Line-boundary characters of Python `str.splitlines` (besides the
two-character boundary `"\r\n"`, handled separately). -/
def isLineBreak (c : Char) : Bool :=
  let n := c.toNat
  n == 10 || n == 11 || n == 12 || n == 13 || n == 28 || n == 29 || n == 30 ||
  n == 133 || n == 0x2028 || n == 0x2029

/-- ASCII letter, the character class `[A-Za-z]` of the keyword regex. -/
def isAsciiAlphaChar (c : Char) : Bool :=
  let n := c.toNat
  (65 ≤ n && n ≤ 90) || (97 ≤ n && n ≤ 122)

/-- ASCII lowercasing of one character, embedding `str.lower` on the ASCII
range (the only range the `[A-Za-z]` tokenizer can see). -/
def lowerChar (c : Char) : Char :=
  if 65 ≤ c.toNat ∧ c.toNat ≤ 90 then Char.ofNat (c.toNat + 32) else c

/-- Embedding of Python `str.lower` (ASCII model). -/
def pyLower (s : String) : String :=
  String.mk (s.toList.map lowerChar)

/-- Embedding of Python `str.strip()` with no argument: drop `pyIsSpace`
characters from both ends. -/
def pyStrip (s : String) : String :=
  String.mk (((s.toList.dropWhile pyIsSpace).reverse.dropWhile pyIsSpace).reverse)

/-- Maximal runs of characters satisfying `p`, with the current run carried
reversed in `acc`; characters failing `p` separate runs and are dropped. -/
def runsByAux (p : Char → Bool) (acc : List Char) : List Char → List (List Char)
  | [] => if acc = [] then [] else [acc.reverse]
  | c :: cs =>
    if p c then runsByAux p (c :: acc) cs
    else if acc = [] then runsByAux p [] cs
    else acc.reverse :: runsByAux p [] cs

/-- All maximal nonempty runs of characters satisfying `p` in a character
list, in order of appearance. -/
def runsBy (p : Char → Bool) (cs : List Char) : List (List Char) :=
  runsByAux p [] cs

/-- Embedding of Python `str.split()` with no argument: the maximal runs of
non-whitespace characters (empty strings never occur). -/
def pySplitWs (s : String) : List String :=
  (runsBy (fun c => !pyIsSpace c) s.toList).map String.mk

/-- Embedding of Python `str.splitlines()`: split at each line boundary,
treating `"\r\n"` as a single boundary, with no trailing empty line. -/
def splitLinesAux (acc : List Char) : List Char → List (List Char)
  | [] => if acc = [] then [] else [acc.reverse]
  | '\r' :: '\n' :: cs2 => acc.reverse :: splitLinesAux [] cs2
  | c :: cs =>
    if isLineBreak c then acc.reverse :: splitLinesAux [] cs
    else splitLinesAux (c :: acc) cs

/-- Embedding of Python `str.splitlines()` on `String`. -/
def pySplitLines (s : String) : List String :=
  (splitLinesAux [] s.toList).map String.mk

/-- Embedding of the Python substring test `needle in hay` on strings. -/
def strContains (hay needle : String) : Bool :=
  decide (needle.toList <:+: hay.toList)

/-! ### Keyword extraction (`keywords` inside `simple_ai_generate`) -/

/-- Maximal runs of ASCII letters in a character list; the regex
`[A-Za-z]{4,}` of `keywords` matches exactly those runs of length at least
four, greedy matching making every match maximal. -/
def letterRuns (cs : List Char) : List (List Char) :=
  runsBy isAsciiAlphaChar cs

/-- Tokens fed to the frequency count of `keywords`:
`re.findall(r"[A-Za-z]{4,}", text.lower())`, i.e. the maximal ASCII-letter
runs of length at least 4 in the lowercased text. -/
def pyTokens (text : String) : List String :=
  ((letterRuns (pyLower text).toList).filter (fun r => 4 ≤ r.length)).map String.mk

/-- One step of the frequency count `common[w] = common.get(w, 0) + 1` on an
insertion-ordered association list (Python dicts preserve insertion order:
an existing key keeps its position, a new key is appended). -/
def bump (w : String) : List (String × Nat) → List (String × Nat)
  | [] => [(w, 1)]
  | (v, n) :: rest => if v = w then (v, n + 1) :: rest else (v, n) :: bump w rest

/-- The frequency dictionary of `keywords` as an insertion-ordered
association list, keys in first-encounter order. -/
def countList (ws : List String) : List (String × Nat) :=
  ws.foldl (fun acc w => bump w acc) []

/-- Count recorded for a word in a frequency list (0 when absent), the
reading of `common.get(w, 0)`. -/
def countOf (acc : List (String × Nat)) (w : String) : Nat :=
  ((acc.find? (fun e => e.1 = w)).map (fun e => e.2)).getD 0

/-- Deduplication keeping first occurrences, skipping words already in
`seen`. -/
def firstDedupAux (seen : List String) : List String → List String
  | [] => []
  | w :: ws =>
    if w ∈ seen then firstDedupAux seen ws
    else w :: firstDedupAux (w :: seen) ws

/-- The distinct words of a list in order of first occurrence — the key
order of the frequency dictionary. -/
def firstDedup (ws : List String) : List String :=
  firstDedupAux [] ws

/-- Comparison used by `sorted(..., key=lambda x: x[1], reverse=True)`:
descending counts. Python's `sorted` is stable, also with `reverse=True`,
so the embedding uses a stable insertion sort under this relation. -/
def cntGe (a b : String × Nat) : Prop := b.2 ≤ a.2

instance : DecidableRel cntGe := fun a b => Nat.decLe b.2 a.2

instance : IsTotal (String × Nat) cntGe :=
  ⟨fun a b => (Nat.le_total b.2 a.2).elim Or.inl Or.inr⟩

instance : IsTrans (String × Nat) cntGe :=
  ⟨fun _ _ _ h1 h2 => Nat.le_trans h2 h1⟩

/-- Stable descending sort of the frequency list, the embedding of
`sorted(common.items(), key=lambda x: x[1], reverse=True)`. -/
def sortDesc (l : List (String × Nat)) : List (String × Nat) :=
  l.insertionSort cntGe

/-- Embedding of the inner `keywords` function of `simple_ai_generate`:
lowercase, tokenize with `[A-Za-z]{4,}`, count, stable-sort by count
descending and keep the 10 most frequent tokens. -/
def keywords (text : String) : List String :=
  ((sortDesc (countList (pyTokens text))).take 10).map Prod.fst

/-! ### Heuristic generation (`simple_ai_generate`) -/

/-- Response model `GeneratedContent` of the backend. -/
structure GeneratedContent where
  title : String
  summary : String
  bullets : List String
  cover_letter : String
  header : String
  footer : String
  advice : String
  deriving Repr, DecidableEq

/-- Stripped non-empty lines of an input, the embedding of
`[l.strip() for l in text.splitlines() if l.strip()]`. -/
def nonEmptyLines (text : String) : List String :=
  ((pySplitLines text).map pyStrip).filter (fun l => ¬ l = "")

/-- Overlap of the two keyword sets. The Python code intersects
`set(keywords(jd))` with `set(keywords(um))`; set iteration order is
implementation-defined, and this embedding fixes it to the order of
`keywords jd` (both keyword lists are duplicate-free). -/
def overlapKw (jd um : String) : List String :=
  (keywords jd).filter (fun w => decide (w ∈ keywords um))

/-- Bullet text `f"Delivered {k}-focused outcomes: {line[:140]}"`. -/
def bulletText (k line : String) : String :=
  "Delivered " ++ k ++ "-focused outcomes: " ++ String.mk (line.toList.take 140)

/-- Fallback bullet `f"Accomplished key outcomes across {', '.join(list(um_kw)[:5])}."`. -/
def fallbackBullet (umKw : List String) : String :=
  "Accomplished key outcomes across " ++ String.intercalate ", " (umKw.take 5) ++ "."

/-- The bullet loop of `simple_ai_generate`: scan the first 12 user-material
lines; for each, the first of the first 8 job keywords occurring (as a
substring, case-insensitively) in the line emits one bullet, while fewer
than 8 bullets have been collected. -/
def bulletStep (jdKw : List String) (acc : List String) (line : String) : List String :=
  if acc.length < 8 then
    match (jdKw.take 8).find? (fun k => strContains (pyLower line) k) with
    | some k => acc ++ [bulletText k line]
    | none => acc
  else acc

/-- The bullet list accumulated by the loop of `simple_ai_generate` over the
first 12 user-material lines. -/
def buildBullets (jdKw umLines : List String) : List String :=
  (umLines.take 12).foldl (bulletStep jdKw) []

/-- Cover-letter template of `simple_ai_generate` around its keyword slot. -/
def coverLetterText (slot : List String) : String :=
  "Dear Hiring Manager,\n\n" ++
  "I\x27m excited to apply for this opportunity. After reviewing the job description, I curated the attached resume to emphasize the most relevant " ++
  "skills and outcomes, including " ++ String.intercalate ", " slot ++ ". " ++
  "I thrive in collaborative, fast-moving environments and would welcome the chance to contribute.\n\n" ++
  "Sincerely,\nYour Name"

/-- Summary template of `simple_ai_generate` around its keyword slot. -/
def summaryText (slot : List String) : String :=
  "Results-driven professional aligning closely with the role\x27s priorities: " ++
  String.intercalate ", " slot ++ ". " ++
  "Brings proven experience highlighted below and tailored precisely to the job description."

/-- Embedding of `simple_ai_generate`, the heuristic generator. -/
def simple_ai_generate (job_description user_material : String) : GeneratedContent :=
  let jd_lines := nonEmptyLines job_description
  let um_lines := nonEmptyLines user_material
  let title :=
    match jd_lines with
    | [] => "Professional Profile"
    | l :: _ => String.intercalate " " ((pySplitWs l).take 6)
  let jd_kw := keywords job_description
  let um_kw := keywords user_material
  let overlap := overlapKw job_description user_material
  let summary := summaryText (overlap.take 6)
  let bullets0 := buildBullets jd_kw um_lines
  let bullets := if bullets0 = [] then [fallbackBullet um_kw] else bullets0
  let cover_letter := coverLetterText (overlap.take 6)
  { title := title
    summary := summary
    bullets := bullets
    cover_letter := cover_letter
    header := "Impact-forward Resume"
    footer := "Created with Flames Blue Resume Builder"
    advice := "Record a 60–90s Loom: start with a 10s intro (name, role), then 30s on a signature achievement, 20s on how it maps to the JD, and finish with a clear ask to connect. Smile, good lighting, and share 1 on-screen artifact (dashboard, code snippet, design)." }

/-! ### The `/generate` handler -/

/-- An HTTP error as raised via `HTTPException(status_code, detail)`. -/
structure HErr where
  status : Nat
  detail : String
  deriving Repr, DecidableEq

/-- Request model of `/generate`. -/
structure GenerateRequest where
  user_id : String
  job_description : String
  user_material : String

/-- Embedding of the `/generate` handler: reject with 400 when either text is
empty after stripping, otherwise run the heuristic generator. -/
def generate (payload : GenerateRequest) : Except HErr GeneratedContent :=
  if pyStrip payload.job_description = "" ∨ pyStrip payload.user_material = "" then
    .error ⟨400, "Both job description and user material are required"⟩
  else
    .ok (simple_ai_generate payload.job_description payload.user_material)

/-! ### Text extraction (`/upload/extract-text`) -/

/-- Is a byte a UTF-8 continuation byte (`0x80`–`0xBF`)? -/
def utf8Cont (b : Nat) : Bool := 128 ≤ b && b ≤ 191

/-- UTF-8 decoding with invalid sequences discarded, embedding
`bytes.decode("utf-8", errors="ignore")`: well-formed sequences (no
surrogates, no overlong forms, at most `U+10FFFF`) decode to their code
point; at an invalid or truncated sequence, the offending lead bytes are
skipped and decoding resumes. Fuel is the byte count; every step consumes
at least one byte. -/
def utf8DecodeAux : Nat → List Nat → List Char
  | 0, _ => []
  | _, [] => []
  | fuel + 1, b :: bs =>
    if b < 128 then Char.ofNat b :: utf8DecodeAux fuel bs
    else if 194 ≤ b && b ≤ 223 then
      match bs with
      | b2 :: bs2 =>
        if utf8Cont b2 then Char.ofNat ((b - 192) * 64 + (b2 - 128)) :: utf8DecodeAux fuel bs2
        else utf8DecodeAux fuel bs
      | [] => []
    else if 224 ≤ b && b ≤ 239 then
      match bs with
      | b2 :: bs2 =>
        let lo2 := if b == 224 then 160 else 128
        let hi2 := if b == 237 then 159 else 191
        if lo2 ≤ b2 && b2 ≤ hi2 then
          match bs2 with
          | b3 :: bs3 =>
            if utf8Cont b3 then
              Char.ofNat ((b - 224) * 4096 + (b2 - 128) * 64 + (b3 - 128)) :: utf8DecodeAux fuel bs3
            else utf8DecodeAux fuel bs2
          | [] => []
        else utf8DecodeAux fuel bs
      | [] => []
    else if 240 ≤ b && b ≤ 244 then
      match bs with
      | b2 :: bs2 =>
        let lo2 := if b == 240 then 144 else 128
        let hi2 := if b == 244 then 143 else 191
        if lo2 ≤ b2 && b2 ≤ hi2 then
          match bs2 with
          | b3 :: bs3 =>
            if utf8Cont b3 then
              match bs3 with
              | b4 :: bs4 =>
                if utf8Cont b4 then
                  Char.ofNat ((b - 240) * 262144 + (b2 - 128) * 4096 + (b3 - 128) * 64 + (b4 - 128))
                    :: utf8DecodeAux fuel bs4
                else utf8DecodeAux fuel bs3
              | [] => []
            else utf8DecodeAux fuel bs2
          | [] => []
        else utf8DecodeAux fuel bs
      | [] => []
    else utf8DecodeAux fuel bs

/-- Embedding of `raw.decode("utf-8", errors="ignore")` on a byte list. -/
def utf8DecodeIgnore (bytes : List Nat) : String :=
  String.mk (utf8DecodeAux bytes.length bytes)

/-- Split a character list at every occurrence of `sep`, keeping empty
pieces, as Python `str.split(sep)` does for a one-character separator. -/
def splitOnCharAux (sep : Char) (acc : List Char) : List Char → List (List Char)
  | [] => [acc.reverse]
  | c :: cs =>
    if c = sep then acc.reverse :: splitOnCharAux sep [] cs
    else splitOnCharAux sep (c :: acc) cs

/-- The extension computed by the handler:
`filename.split(".")[-1].lower()` (the whole filename when no dot). -/
def extOf (filename : String) : String :=
  pyLower (String.mk ((splitOnCharAux '.' [] filename.toList).getLastD []))

/-- Runtime environment of the extraction handler. `pdfAvailable` and
`docxAvailable` model whether the optional parser imports succeeded;
`pdfExtract`/`docxExtract` model the external parser libraries on the
uploaded bytes (already newline-joined as the handler does), returning
`none` when parsing raises; `failDetail` is the resulting truncated
diagnostic. The parsers are external collaborators, opaque to this
repository. -/
structure ExtractEnv where
  pdfAvailable : Bool
  docxAvailable : Bool
  pdfExtract : List Nat → Option String
  docxExtract : List Nat → Option String
  failDetail : String

/-- Embedding of the `/upload/extract-text` handler, with the store assumed
configured: route on the extension (`"pdf"` to the PDF parser; `"docx"` or
`"doc"` to the DOCX parser, each stripped, 400 on a missing backend or a
parse failure), any other extension decoded as UTF-8 ignoring errors. -/
def extract_text (env : ExtractEnv) (filename : String) (bytes : List Nat) :
    Except HErr String :=
  let ext := extOf filename
  if ext = "pdf" then
    if env.pdfAvailable then
      match env.pdfExtract bytes with
      | some t => .ok (pyStrip t)
      | none => .error ⟨400, "Failed to read file: " ++ env.failDetail⟩
    else .error ⟨400, "PDF support not available"⟩
  else if ext = "docx" ∨ ext = "doc" then
    if env.docxAvailable then
      match env.docxExtract bytes with
      | some t => .ok (pyStrip t)
      | none => .error ⟨400, "Failed to read file: " ++ env.failDetail⟩
    else .error ⟨400, "DOCX support not available"⟩
  else .ok (utf8DecodeIgnore bytes)

/-! ### Store model and the signin/profile handlers

Modelled from the spec: the document store itself (`database.db`) is
configured outside the sources given here; per the spec it "provides point
lookups, inserts, and field updates keyed by opaque identifiers". Each
collection is a list of documents in insertion order; `find_one` returns the
first match, `insert_one` appends a document with a fresh object id, and
`update_one` rewrites the first matching document. `uuid.uuid4` draws are an
explicit supply: `uuidSupply n` is the text of the `n`-th draw in the form
the code uses (`str(...)` for tokens, `.hex` for slugs). -/

/-- A document of the `user` collection. -/
structure UserDoc where
  oid : Nat
  email : String
  name : String
  created_at : Nat
  updated_at : Nat
  deriving Repr, DecidableEq

/-- A document of the `session` collection. -/
structure SessionDoc where
  user_oid : Nat
  token : String
  created_at : Nat
  deriving Repr, DecidableEq

/-- A document of the `profile` collection. -/
structure ProfileDoc where
  oid : Nat
  user_oid : Nat
  content : GeneratedContent
  loom_url : Option String
  photo_url : Option String
  share_slug : String
  created_at : Nat
  updated_at : Nat
  deriving Repr, DecidableEq

/-- Application state: the three collections, the next fresh object id, the
supply of `uuid4` draws with its position, and the current clock reading. -/
structure AppState where
  users : List UserDoc
  sessions : List SessionDoc
  profiles : List ProfileDoc
  nextOid : Nat
  uuidSupply : Nat → String
  uuidPtr : Nat
  now : Nat

/-- String form of an object id, as in `str(doc["_id"])`. -/
def oidStr (n : Nat) : String := "oid" ++ Nat.repr n

/-- Inverse of `oidStr`, modelling the validity check of the
`ObjectId(user_id)` constructor: only strings produced by `oidStr` parse. -/
def parseOid (s : String) : Option Nat :=
  match s.toList with
  | 'o' :: 'i' :: 'd' :: ds =>
    if ds ≠ [] ∧ ds.all (fun c => c.isDigit) then
      some (ds.foldl (fun n c => n * 10 + (c.toNat - 48)) 0)
    else none
  | _ => none

/-- Rewrite the first document matching `q` with `f`, the model of
`update_one(filter, {"$set": ...})`. -/
def updateFirst (q : UserDoc → Bool) (f : UserDoc → UserDoc) :
    List UserDoc → List UserDoc
  | [] => []
  | u :: us => if q u then f u :: us else u :: updateFirst q f us

/-- Response of `/auth/signin`. -/
structure SignInResponse where
  user_id : String
  token : String
  deriving Repr, DecidableEq

/-- Local part of an email, `email.split("@")[0]`, the default display
name. -/
def emailLocalPart (email : String) : String :=
  (email.splitOn "@").headD ""

/-- Embedding of the `/auth/signin` handler (store configured): find the
user by email or insert a fresh one, set the name and update timestamp on
an existing user, and insert a session with a fresh `uuid4` token. -/
def signin (st : AppState) (email : String) (name : Option String) :
    SignInResponse × AppState :=
  let token := st.uuidSupply st.uuidPtr
  match st.users.find? (fun u => u.email = email) with
  | none =>
    let uid := st.nextOid
    let doc : UserDoc :=
      { oid := uid
        email := email
        name := (name.filter (fun s => s ≠ "")).getD (emailLocalPart email)
        created_at := st.now
        updated_at := st.now }
    (⟨oidStr uid, token⟩,
      { st with
        users := st.users ++ [doc]
        sessions := st.sessions ++ [⟨uid, token, st.now⟩]
        nextOid := st.nextOid + 1
        uuidPtr := st.uuidPtr + 1 })
  | some u =>
    let uid := u.oid
    (⟨oidStr uid, token⟩,
      { st with
        users := updateFirst (fun v => v.oid = uid)
          (fun v => { v with
            name := (name.filter (fun s => s ≠ "")).getD u.name
            updated_at := st.now }) st.users
        sessions := st.sessions ++ [⟨uid, token, st.now⟩]
        uuidPtr := st.uuidPtr + 1 })

/-- Request model of `POST /profile`. -/
structure SaveProfileRequest where
  user_id : String
  content : GeneratedContent
  loom_url : Option String
  photo_url : Option String

/-- Response of `POST /profile`. -/
structure SaveProfileResponse where
  profile_id : String
  share_slug : String
  deriving Repr, DecidableEq

/-- Embedding of the `POST /profile` handler (store configured): 400 on an
unparsable `user_id`; otherwise insert a profile document whose
`share_slug` is the first 10 characters of a fresh `uuid4` draw's hex
form. -/
def save_profile (st : AppState) (req : SaveProfileRequest) :
    Except HErr (SaveProfileResponse × AppState) :=
  match parseOid req.user_id with
  | none => .error ⟨400, "Invalid user_id"⟩
  | some uoid =>
    let slug := String.mk ((st.uuidSupply st.uuidPtr).toList.take 10)
    let doc : ProfileDoc :=
      { oid := st.nextOid
        user_oid := uoid
        content := req.content
        loom_url := req.loom_url
        photo_url := req.photo_url
        share_slug := slug
        created_at := st.now
        updated_at := st.now }
    .ok (⟨oidStr st.nextOid, slug⟩,
      { st with
        profiles := st.profiles ++ [doc]
        nextOid := st.nextOid + 1
        uuidPtr := st.uuidPtr + 1 })

/-- The profile document as returned by `GET /profile/{slug}`: the stored
fields with the two object-id fields converted to strings. -/
structure ProfileOut where
  _id : String
  user_id : String
  content : GeneratedContent
  loom_url : Option String
  photo_url : Option String
  share_slug : String
  created_at : Nat
  updated_at : Nat
  deriving Repr, DecidableEq

/-- Embedding of the `GET /profile/{slug}` handler (store configured): find
the first profile with the given slug, 404 when none matches; the store is
returned unchanged. -/
def get_profile (st : AppState) (slug : String) :
    Except HErr ProfileOut × AppState :=
  match st.profiles.find? (fun p => p.share_slug = slug) with
  | none => (.error ⟨404, "Profile not found"⟩, st)
  | some p =>
    (.ok
      { _id := oidStr p.oid
        user_id := oidStr p.user_oid
        content := p.content
        loom_url := p.loom_url
        photo_url := p.photo_url
        share_slug := p.share_slug
        created_at := p.created_at
        updated_at := p.updated_at }, st)

/-! ## Helper lemmas -/

theorem foldl_bulletStep_length_le (jdKw : List String) :
    ∀ (lines : List String) (acc : List String), acc.length ≤ 8 →
      (lines.foldl (bulletStep jdKw) acc).length ≤ 8 := by
  intro lines
  induction lines with
  | nil => intro acc h; simpa using h
  | cons line rest ih =>
    intro acc h
    simp only [List.foldl_cons]
    apply ih
    unfold bulletStep
    by_cases hlt : acc.length < 8
    · simp only [hlt, if_true]
      cases (jdKw.take 8).find? (fun k => strContains (pyLower line) k) with
      | none => exact h
      | some k =>
        simp only [List.length_append, List.length_cons, List.length_nil]
        omega
    · simp only [hlt, if_false]; exact h

theorem buildBullets_length_le (jdKw umLines : List String) :
    (buildBullets jdKw umLines).length ≤ 8 :=
  foldl_bulletStep_length_le jdKw (umLines.take 12) [] (by simp)

theorem foldl_bulletStep_nil (jdKw : List String) :
    ∀ (lines : List String),
      (∀ line ∈ lines, (jdKw.take 8).find? (fun k => strContains (pyLower line) k) = none) →
      lines.foldl (bulletStep jdKw) [] = [] := by
  intro lines
  induction lines with
  | nil => intro _; rfl
  | cons line rest ih =>
    intro h
    simp only [List.foldl_cons]
    have hstep : bulletStep jdKw [] line = [] := by
      unfold bulletStep
      simp [h line (by simp)]
    rw [hstep]
    exact ih (fun l hl => h l (by simp [hl]))

/-! ## Claims -/

set_option maxRecDepth 16000

/-- C1: the `/generate` handler fails with HTTP 400 ("invalid argument")
whenever the job description or the user material strips to the empty
string, and returns the heuristic generator's `GeneratedContent` without
error when both strip to non-empty strings. -/
theorem C1_generate_validation (p : GenerateRequest) :
    (pyStrip p.job_description = "" ∨ pyStrip p.user_material = "" →
      generate p = .error ⟨400, "Both job description and user material are required"⟩)
    ∧ (pyStrip p.job_description ≠ "" → pyStrip p.user_material ≠ "" →
      generate p = .ok (simple_ai_generate p.job_description p.user_material)) := by
  constructor
  · intro h; simp only [generate, if_pos h]
  · intro h1 h2
    have : ¬ (pyStrip p.job_description = "" ∨ pyStrip p.user_material = "") := by
      rintro (h | h) <;> [exact h1 h; exact h2 h]
    simp only [generate, if_neg this]

/-- Witness for C1 at the spec's own example inputs: the three degenerate
calls fail with the 400 error and a non-degenerate call succeeds. -/
theorem C1_generate_validation_witness :
    generate ⟨"u", "", "x"⟩ = .error ⟨400, "Both job description and user material are required"⟩
    ∧ generate ⟨"u", "x", ""⟩ = .error ⟨400, "Both job description and user material are required"⟩
    ∧ generate ⟨"u", "", ""⟩ = .error ⟨400, "Both job description and user material are required"⟩
    ∧ generate ⟨"u", "jobq", "matq"⟩ = .ok (simple_ai_generate "jobq" "matq") :=
  ⟨(C1_generate_validation ⟨"u", "", "x"⟩).1 (Or.inl (by decide)),
   (C1_generate_validation ⟨"u", "x", ""⟩).1 (Or.inr (by decide)),
   (C1_generate_validation ⟨"u", "", ""⟩).1 (Or.inl (by decide)),
   (C1_generate_validation ⟨"u", "jobq", "matq"⟩).2 (by decide) (by decide)⟩

/-- C2: for all inputs the generator's bullets list has between 1 and 8
entries, and when no user-material line contains any of the job-description
keywords the list is exactly the single fallback bullet naming up to 5
user-material keywords. -/
theorem C2_bullets_bounds (jd um : String) :
    1 ≤ (simple_ai_generate jd um).bullets.length
    ∧ (simple_ai_generate jd um).bullets.length ≤ 8
    ∧ ((∀ line ∈ nonEmptyLines um, ∀ k ∈ keywords jd,
          strContains (pyLower line) k = false) →
        (simple_ai_generate jd um).bullets = [fallbackBullet (keywords um)]) := by
  have hbul : (simple_ai_generate jd um).bullets =
      (if buildBullets (keywords jd) (nonEmptyLines um) = []
        then [fallbackBullet (keywords um)]
        else buildBullets (keywords jd) (nonEmptyLines um)) := rfl
  refine ⟨?_, ?_, ?_⟩
  · rw [hbul]
    by_cases h : buildBullets (keywords jd) (nonEmptyLines um) = []
    · simp [h]
    · simp only [h, if_false]
      exact Nat.succ_le_of_lt (List.length_pos.mpr h)
  · rw [hbul]
    by_cases h : buildBullets (keywords jd) (nonEmptyLines um) = []
    · simp [h]
    · simp only [h, if_false]
      exact buildBullets_length_le _ _
  · intro h
    have hnil : buildBullets (keywords jd) (nonEmptyLines um) = [] := by
      apply foldl_bulletStep_nil
      intro line hline
      rw [List.find?_eq_none]
      intro k hk
      have h1 : line ∈ nonEmptyLines um := List.mem_of_mem_take hline
      have h2 : k ∈ keywords jd := List.mem_of_mem_take hk
      simp [h line h1 k h2]
    rw [hbul, if_pos hnil]

/-- Witness for C2 at inputs with no keyword overlap at all: the bullets
collapse to the single fallback bullet. -/
theorem C2_bullets_bounds_witness :
    1 ≤ (simple_ai_generate "qqqq" "zzzz").bullets.length
    ∧ (simple_ai_generate "qqqq" "zzzz").bullets.length ≤ 8
    ∧ (simple_ai_generate "qqqq" "zzzz").bullets = [fallbackBullet (keywords "zzzz")] :=
  ⟨(C2_bullets_bounds "qqqq" "zzzz").1,
   (C2_bullets_bounds "qqqq" "zzzz").2.1,
   (C2_bullets_bounds "qqqq" "zzzz").2.2 (by decide)⟩

/-- C3: the title is the first 6 whitespace-separated tokens of the first
non-empty job-description line rejoined with single spaces; a line of at
most 6 tokens keeps all of them (the spec's 5-token example is returned
verbatim), an 8-token line is cut to its first 6; with no non-empty line
the title is the fixed default. -/
theorem C3_title_derivation :
    (∀ jd um, nonEmptyLines jd = [] →
      (simple_ai_generate jd um).title = "Professional Profile")
    ∧ (∀ jd um l ls, nonEmptyLines jd = l :: ls →
      (simple_ai_generate jd um).title = String.intercalate " " ((pySplitWs l).take 6))
    ∧ (∀ jd um l ls, nonEmptyLines jd = l :: ls → (pySplitWs l).length ≤ 6 →
      (simple_ai_generate jd um).title = String.intercalate " " (pySplitWs l))
    ∧ (∀ um, (simple_ai_generate "Senior Backend Engineer at Acme" um).title
        = "Senior Backend Engineer at Acme")
    ∧ (∀ um, (simple_ai_generate "One Two Three Four Five Six Seven Eight" um).title
        = "One Two Three Four Five Six") := by
  have htitle : ∀ jd um, (simple_ai_generate jd um).title =
      (match nonEmptyLines jd with
        | [] => "Professional Profile"
        | l :: _ => String.intercalate " " ((pySplitWs l).take 6)) := fun _ _ => rfl
  refine ⟨?_, ?_, ?_, ?_, ?_⟩
  · intro jd um h; rw [htitle, h]
  · intro jd um l ls h; rw [htitle, h]
  · intro jd um l ls h hlen
    rw [htitle, h]
    simp only [List.take_of_length_le hlen]
  · intro um; rw [htitle]; decide
  · intro um; rw [htitle]; decide

/-- Witness for C3: concrete instantiations of each hypothetical part, with
a 2-token first line preceded by an all-whitespace line. -/
theorem C3_title_derivation_witness :
    (simple_ai_generate "" "mat").title = "Professional Profile"
    ∧ (simple_ai_generate "  \nalpha  beta" "mat").title
        = String.intercalate " " ((pySplitWs "alpha  beta").take 6)
    ∧ (simple_ai_generate "  \nalpha  beta" "mat").title
        = String.intercalate " " (pySplitWs "alpha  beta") :=
  ⟨(C3_title_derivation).1 "" "mat" (by decide),
   (C3_title_derivation).2.1 "  \nalpha  beta" "mat" "alpha  beta" [] (by decide),
   (C3_title_derivation).2.2.1 "  \nalpha  beta" "mat" "alpha  beta" [] (by decide) (by decide)⟩

/-- C4 counterexample: on inputs with 7 overlapping keywords the code's
cover letter embeds only the first 6 of them — the same `[:6]` slice as the
summary — not an unbounded count as the claim states. -/
theorem C4_cover_letter_counterexample :
    (overlapKw "alpha beta gamma delta epsil zetaq etaqr"
        "alpha beta gamma delta epsil zetaq etaqr").length = 7
    ∧ (simple_ai_generate "alpha beta gamma delta epsil zetaq etaqr"
          "alpha beta gamma delta epsil zetaq etaqr").cover_letter
        ≠ coverLetterText (overlapKw "alpha beta gamma delta epsil zetaq etaqr"
          "alpha beta gamma delta epsil zetaq etaqr")
    ∧ (simple_ai_generate "alpha beta gamma delta epsil zetaq etaqr"
          "alpha beta gamma delta epsil zetaq etaqr").cover_letter
        = coverLetterText ((overlapKw "alpha beta gamma delta epsil zetaq etaqr"
          "alpha beta gamma delta epsil zetaq etaqr").take 6) := by
  refine ⟨by decide, by decide, rfl⟩

/-- C4 amended: both the cover letter and the summary embed at most the
first 6 overlap keywords — the two slots use the same slice, with no
asymmetry between them. -/
theorem C4_cover_letter_slice (jd um : String) :
    (simple_ai_generate jd um).cover_letter = coverLetterText ((overlapKw jd um).take 6)
    ∧ (simple_ai_generate jd um).summary = summaryText ((overlapKw jd um).take 6) :=
  ⟨rfl, rfl⟩

theorem utf8DecodeAux_ascii :
    ∀ (bs : List Nat) (fuel : Nat), bs.length ≤ fuel → (∀ b ∈ bs, b < 128) →
      utf8DecodeAux fuel bs = bs.map Char.ofNat := by
  intro bs
  induction bs with
  | nil => intro fuel _ _; cases fuel <;> rfl
  | cons b rest ih =>
    intro fuel hfuel hlt
    cases fuel with
    | zero => simp at hfuel
    | succ fuel =>
      have hb : b < 128 := hlt b (by simp)
      simp only [utf8DecodeAux, if_pos hb, List.map_cons]
      rw [ih fuel (by simpa using hfuel) (fun x hx => hlt x (by simp [hx]))]

/-- C6 counterexample: a `".doc"` upload has an extension that is neither
`"pdf"` nor `"docx"`, yet the handler routes it to the DOCX branch instead
of decoding the bytes as UTF-8 (here, in an environment without the DOCX
backend, uploading the bytes of `"hello\nworld"` as `"x.doc"` yields a 400
error, not the decoded text the claim requires). -/
theorem C6_doc_extension_counterexample :
    extOf "x.doc" ≠ "pdf" ∧ extOf "x.doc" ≠ "docx"
    ∧ utf8DecodeIgnore [104, 101, 108, 108, 111, 10, 119, 111, 114, 108, 100] = "hello\nworld"
    ∧ extract_text ⟨false, false, fun _ => none, fun _ => none, "err"⟩ "x.doc"
          [104, 101, 108, 108, 111, 10, 119, 111, 114, 108, 100]
        = .error ⟨400, "DOCX support not available"⟩ := by
  refine ⟨by decide, by decide, by decide, rfl⟩

/-- C6 amended: for an extension that is none of `"pdf"`, `"docx"` and
`"doc"`, the handler returns the raw bytes decoded as UTF-8 with invalid
sequences discarded, in every parser environment; all-ASCII bytes decode to
themselves, so a `".txt"` upload of the bytes of `"hello\nworld"` returns
exactly `"hello\nworld"`. -/
theorem C6_extract_text_fallback :
    (∀ (env : ExtractEnv) (filename : String) (bytes : List Nat),
        extOf filename ≠ "pdf" → extOf filename ≠ "docx" → extOf filename ≠ "doc" →
        extract_text env filename bytes = .ok (utf8DecodeIgnore bytes))
    ∧ (∀ bytes : List Nat, (∀ b ∈ bytes, b < 128) →
        utf8DecodeIgnore bytes = String.mk (bytes.map Char.ofNat))
    ∧ (∀ env : ExtractEnv,
        extract_text env "note.txt" [104, 101, 108, 108, 111, 10, 119, 111, 114, 108, 100]
          = .ok "hello\nworld") := by
  have hmain : ∀ (env : ExtractEnv) (filename : String) (bytes : List Nat),
      extOf filename ≠ "pdf" → extOf filename ≠ "docx" → extOf filename ≠ "doc" →
      extract_text env filename bytes = .ok (utf8DecodeIgnore bytes) := by
    intro env filename bytes h1 h2 h3
    unfold extract_text
    rw [if_neg h1, if_neg (by rintro (h | h) <;> [exact h2 h; exact h3 h])]
  refine ⟨hmain, ?_, ?_⟩
  · intro bytes h
    unfold utf8DecodeIgnore
    rw [utf8DecodeAux_ascii bytes bytes.length (Nat.le_refl _) h]
  · intro env
    rw [hmain env "note.txt" _ (by decide) (by decide) (by decide)]
    rfl

/-- Witness for C6 amended: the `".txt"` round trip in a concrete
environment with both parser backends present. -/
theorem C6_extract_text_fallback_witness :
    extract_text ⟨true, true, fun _ => some "", fun _ => some "", ""⟩ "note.txt"
        [104, 101, 108, 108, 111, 10, 119, 111, 114, 108, 100]
      = .ok "hello\nworld"
    ∧ utf8DecodeIgnore [104, 105] = String.mk ([104, 105].map Char.ofNat) :=
  ⟨(C6_extract_text_fallback).2.2 ⟨true, true, fun _ => some "", fun _ => some "", ""⟩,
   (C6_extract_text_fallback).2.1 [104, 105] (by decide)⟩

theorem find?_updateFirst_email_oid (e : String) (q : UserDoc → Bool)
    (f : UserDoc → UserDoc) (hf : ∀ u, (f u).email = u.email ∧ (f u).oid = u.oid) :
    ∀ l : List UserDoc,
      ((updateFirst q f l).find? (fun u => u.email = e)).map (fun u => u.oid)
        = (l.find? (fun u => u.email = e)).map (fun u => u.oid) := by
  intro l
  induction l with
  | nil => rfl
  | cons u us ih =>
    unfold updateFirst
    by_cases hq : q u = true
    · rw [if_pos hq]
      by_cases he : u.email = e
      · rw [List.find?_cons_of_pos _ (by simp [(hf u).1, he]),
          List.find?_cons_of_pos _ (by simp [he])]
        simp [(hf u).2]
      · rw [List.find?_cons_of_neg _ (by simp [(hf u).1, he]),
          List.find?_cons_of_neg _ (by simp [he])]
    · rw [if_neg hq]
      by_cases he : u.email = e
      · rw [List.find?_cons_of_pos _ (by simp [he]),
          List.find?_cons_of_pos _ (by simp [he])]
      · rw [List.find?_cons_of_neg _ (by simp [he]),
          List.find?_cons_of_neg _ (by simp [he])]
        exact ih

/-- C7: two sequential sign-ins with the same email return the same
`user_id` (whether or not the user already existed), and — as long as the
two `uuid4` draws differ, which is what "freshly generated" can promise —
the two returned tokens are the consecutive draws and are distinct. -/
theorem C7_signin_same_email (st : AppState) (email : String) (n1 n2 : Option String)
    (hdraw : st.uuidSupply st.uuidPtr ≠ st.uuidSupply (st.uuidPtr + 1)) :
    (signin st email n1).1.user_id = (signin (signin st email n1).2 email n2).1.user_id
    ∧ (signin st email n1).1.token = st.uuidSupply st.uuidPtr
    ∧ (signin (signin st email n1).2 email n2).1.token = st.uuidSupply (st.uuidPtr + 1)
    ∧ (signin st email n1).1.token ≠ (signin (signin st email n1).2 email n2).1.token := by
  cases hfind : st.users.find? (fun u => u.email = email) with
  | none =>
    simp only [signin, hfind]
    rw [List.find?_append, hfind]
    simp only [Option.none_or]
    rw [List.find?_cons_of_pos _ (by simp)]
    exact ⟨by trivial, by trivial, by trivial, by simpa using hdraw⟩
  | some u =>
    simp only [signin, hfind]
    have hupd := find?_updateFirst_email_oid email (fun v => v.oid = u.oid)
      (fun v => { v with
        name := ((n1.filter (fun s => s ≠ "")).getD u.name)
        updated_at := st.now })
      (fun _ => ⟨rfl, rfl⟩) st.users
    rw [hfind] at hupd
    cases hfind2 : (updateFirst (fun v => v.oid = u.oid)
        (fun v => { v with
          name := ((n1.filter (fun s => s ≠ "")).getD u.name)
          updated_at := st.now }) st.users).find? (fun v => v.email = email) with
    | none => rw [hfind2] at hupd; simp at hupd
    | some u2 =>
      rw [hfind2] at hupd
      have hoid : u2.oid = u.oid := by simpa using hupd
      exact ⟨congrArg oidStr hoid.symm, by trivial, by trivial, by exact hdraw⟩

/-- Witness for C7: two sign-ins with the same email against an initially
empty store, with an injective draw supply. -/
theorem C7_signin_same_email_witness :
    (signin ⟨[], [], [], 0, fun n => String.mk (List.replicate n 'x'), 0, 0⟩ "a@b" none).1.user_id
      = (signin (signin ⟨[], [], [], 0, fun n => String.mk (List.replicate n 'x'), 0, 0⟩ "a@b" none).2
          "a@b" none).1.user_id
    ∧ (signin ⟨[], [], [], 0, fun n => String.mk (List.replicate n 'x'), 0, 0⟩ "a@b" none).1.token
      ≠ (signin (signin ⟨[], [], [], 0, fun n => String.mk (List.replicate n 'x'), 0, 0⟩ "a@b" none).2
          "a@b" none).1.token :=
  ⟨(C7_signin_same_email ⟨[], [], [], 0, fun n => String.mk (List.replicate n 'x'), 0, 0⟩
      "a@b" none none (by decide)).1,
   (C7_signin_same_email ⟨[], [], [], 0, fun n => String.mk (List.replicate n 'x'), 0, 0⟩
      "a@b" none none (by decide)).2.2.2⟩

/-- C8: saving a profile and fetching it by the returned `share_slug`
returns a document whose embedded content is the saved content, with the
`_id` and `user_id` fields rendered as strings (`oidStr`) rather than raw
object ids — provided the fresh slug does not collide with an existing
profile's slug. -/
theorem C8_profile_roundtrip (st : AppState) (req : SaveProfileRequest) (uoid : Nat)
    (hparse : parseOid req.user_id = some uoid)
    (hfresh : ∀ p ∈ st.profiles,
      p.share_slug ≠ String.mk ((st.uuidSupply st.uuidPtr).toList.take 10)) :
    ∃ res st2, save_profile st req = .ok (res, st2)
      ∧ (get_profile st2 res.share_slug).1 = .ok
          { _id := res.profile_id
            user_id := oidStr uoid
            content := req.content
            loom_url := req.loom_url
            photo_url := req.photo_url
            share_slug := res.share_slug
            created_at := st.now
            updated_at := st.now } := by
  refine ⟨⟨oidStr st.nextOid, String.mk ((st.uuidSupply st.uuidPtr).toList.take 10)⟩,
    { st with
      profiles := st.profiles ++
        [{ oid := st.nextOid
           user_oid := uoid
           content := req.content
           loom_url := req.loom_url
           photo_url := req.photo_url
           share_slug := String.mk ((st.uuidSupply st.uuidPtr).toList.take 10)
           created_at := st.now
           updated_at := st.now }]
      nextOid := st.nextOid + 1
      uuidPtr := st.uuidPtr + 1 }, ?_, ?_⟩
  · unfold save_profile
    rw [hparse]
  · unfold get_profile
    rw [List.find?_append,
      List.find?_eq_none.mpr (fun p hp => by simpa using hfresh p hp)]
    simp only [Option.none_or]
    rw [List.find?_cons_of_pos _ (by simp)]

/-- Witness for C8: a concrete round trip against an empty store. -/
theorem C8_profile_roundtrip_witness :
    ∃ res st2,
      save_profile
          ⟨[], [], [], 7, fun _ => "0123456789abcdef0123456789abcdef", 0, 3⟩
          ⟨"oid5", ⟨"t", "s", ["b"], "c", "h", "f", "a"⟩, none, some "p"⟩
        = .ok (res, st2)
      ∧ (get_profile st2 res.share_slug).1 = .ok
          { _id := res.profile_id
            user_id := oidStr 5
            content := ⟨"t", "s", ["b"], "c", "h", "f", "a"⟩
            loom_url := none
            photo_url := some "p"
            share_slug := res.share_slug
            created_at := 3
            updated_at := 3 } :=
  C8_profile_roundtrip ⟨[], [], [], 7, fun _ => "0123456789abcdef0123456789abcdef", 0, 3⟩
    ⟨"oid5", ⟨"t", "s", ["b"], "c", "h", "f", "a"⟩, none, some "p"⟩ 5
    (by decide) (by intro p hp; simp at hp)

/-- C9: fetching a profile whose slug matches no stored profile fails with
HTTP 404 and leaves the store unchanged. -/
theorem C9_get_profile_not_found (st : AppState) (slug : String)
    (h : ∀ p ∈ st.profiles, p.share_slug ≠ slug) :
    get_profile st slug = (.error ⟨404, "Profile not found"⟩, st) := by
  have hnone : st.profiles.find? (fun p => p.share_slug = slug) = none :=
    List.find?_eq_none.mpr (fun p hp => by simpa using h p hp)
  unfold get_profile
  rw [hnone]

/-- Witness for C9: an unknown slug against a store holding one profile. -/
theorem C9_get_profile_not_found_witness :
    get_profile
        ⟨[], [], [⟨1, 2, ⟨"t", "s", ["b"], "c", "h", "f", "a"⟩, none, none, "abcde01234", 0, 0⟩],
          3, fun _ => "", 0, 0⟩ "nope"
      = (.error ⟨404, "Profile not found"⟩,
        ⟨[], [], [⟨1, 2, ⟨"t", "s", ["b"], "c", "h", "f", "a"⟩, none, none, "abcde01234", 0, 0⟩],
          3, fun _ => "", 0, 0⟩) :=
  C9_get_profile_not_found _ "nope"
    (by intro p hp; simp only [List.mem_singleton] at hp; subst hp; decide)

/-- C10: when the `uuid4` draw is (as `uuid.hex` guarantees) a 32-character
lowercase-hexadecimal string, the `share_slug` of the profile document
created by a successful save is exactly its first 10 characters: 10
characters long and all lowercase hexadecimal digits. -/
theorem C10_share_slug_hex (st : AppState) (req : SaveProfileRequest)
    (res : SaveProfileResponse) (st2 : AppState)
    (hsave : save_profile st req = .ok (res, st2))
    (hlen : (st.uuidSupply st.uuidPtr).toList.length = 32)
    (hhex : ∀ c ∈ (st.uuidSupply st.uuidPtr).toList, c.isDigit ∨ ('a' ≤ c ∧ c ≤ 'f')) :
    res.share_slug = String.mk ((st.uuidSupply st.uuidPtr).toList.take 10)
    ∧ res.share_slug.toList.length = 10
    ∧ (∀ c ∈ res.share_slug.toList, c.isDigit ∨ ('a' ≤ c ∧ c ≤ 'f'))
    ∧ ∃ doc, st2.profiles = st.profiles ++ [doc] ∧ doc.share_slug = res.share_slug := by
  unfold save_profile at hsave
  cases hparse : parseOid req.user_id with
  | none => rw [hparse] at hsave; exact absurd hsave (by simp)
  | some uoid =>
    rw [hparse] at hsave
    obtain ⟨hres, hst2⟩ := Prod.mk.inj (Except.ok.inj hsave)
    have hslug : res.share_slug = String.mk ((st.uuidSupply st.uuidPtr).toList.take 10) := by
      rw [← hres]
    refine ⟨hslug, ?_, ?_, ?_⟩
    · rw [hslug]
      show ((st.uuidSupply st.uuidPtr).toList.take 10).length = 10
      rw [List.length_take, hlen]
      decide
    · intro c hc
      rw [hslug] at hc
      exact hhex c (List.mem_of_mem_take hc)
    · exact ⟨⟨st.nextOid, uoid, req.content, req.loom_url, req.photo_url,
        String.mk ((st.uuidSupply st.uuidPtr).toList.take 10), st.now, st.now⟩,
        by rw [← hst2], by rw [hslug]⟩

/-- Witness for C10: a concrete save with a literal `uuid4().hex` draw. -/
theorem C10_share_slug_hex_witness :
    ("0011223344" : String) = String.mk (("00112233445566778899aabbccddeeff" : String).toList.take 10)
    ∧ ("0011223344" : String).toList.length = 10
    ∧ (∀ c ∈ ("0011223344" : String).toList, c.isDigit ∨ ('a' ≤ c ∧ c ≤ 'f')) := by
  have h := C10_share_slug_hex
    ⟨[], [], [], 0, fun _ => "00112233445566778899aabbccddeeff", 0, 0⟩
    ⟨"oid1", ⟨"t", "s", ["b"], "c", "h", "f", "a"⟩, none, none⟩
    ⟨oidStr 0, "0011223344"⟩
    ⟨[], [],
      [⟨0, 1, ⟨"t", "s", ["b"], "c", "h", "f", "a"⟩, none, none, "0011223344", 0, 0⟩],
      1, fun _ => "00112233445566778899aabbccddeeff", 1, 0⟩
    (by rfl) (by decide) (by decide)
  exact ⟨h.1, h.2.1, h.2.2.1⟩

theorem countOf_cons (x : String × Nat) (rest : List (String × Nat)) (w : String) :
    countOf (x :: rest) w = if x.1 = w then x.2 else countOf rest w := by
  by_cases h : x.1 = w
  · rw [if_pos h]
    unfold countOf
    rw [List.find?_cons_of_pos _ (by simp [h])]
    rfl
  · rw [if_neg h]
    unfold countOf
    rw [List.find?_cons_of_neg _ (by simp [h])]

theorem countOf_bump (v w : String) :
    ∀ acc : List (String × Nat),
      countOf (bump v acc) w = if v = w then countOf acc w + 1 else countOf acc w := by
  intro acc
  induction acc with
  | nil =>
    rw [show bump v [] = [(v, 1)] from rfl, countOf_cons]
    by_cases hvw : v = w <;> simp [hvw, countOf]
  | cons e rest ih =>
    obtain ⟨u, n⟩ := e
    show countOf (if u = v then (u, n + 1) :: rest else (u, n) :: bump v rest) w = _
    by_cases huv : u = v
    · rw [if_pos huv, countOf_cons, countOf_cons]
      by_cases huw : u = w <;> by_cases hvw : v = w
      · simp [huw, hvw]
      · exact absurd (huv.symm.trans huw) hvw
      · exact absurd (huv.trans hvw) huw
      · simp [huw, hvw]
    · rw [if_neg huv, countOf_cons, ih, countOf_cons]
      by_cases huw : u = w <;> by_cases hvw : v = w
      · exact absurd (huw.trans hvw.symm) huv
      · simp [huw, hvw]
      · simp [huw, hvw]
      · simp [huw, hvw]

theorem countOf_foldl_bump (w : String) :
    ∀ (ws : List String) (acc : List (String × Nat)),
      countOf (ws.foldl (fun a v => bump v a) acc) w = countOf acc w + ws.count w := by
  intro ws
  induction ws with
  | nil => intro acc; simp
  | cons v ws ih =>
    intro acc
    rw [List.foldl_cons, ih, countOf_bump, List.count_cons]
    by_cases hvw : v = w
    · rw [if_pos hvw, if_pos (beq_iff_eq.mpr hvw)]
      omega
    · rw [if_neg hvw, if_neg (by simp [hvw])]
      omega

theorem countList_count (ws : List String) (w : String) :
    countOf (countList ws) w = ws.count w := by
  rw [show countList ws = ws.foldl (fun a v => bump v a) [] from rfl, countOf_foldl_bump]
  simp [countOf]

theorem keys_bump (v : String) :
    ∀ acc : List (String × Nat),
      (bump v acc).map Prod.fst =
        if v ∈ acc.map Prod.fst then acc.map Prod.fst else acc.map Prod.fst ++ [v] := by
  intro acc
  induction acc with
  | nil => simp [bump]
  | cons e rest ih =>
    obtain ⟨u, n⟩ := e
    show (if u = v then (u, n + 1) :: rest else (u, n) :: bump v rest).map Prod.fst = _
    by_cases huv : u = v
    · rw [if_pos huv]
      simp [huv]
    · rw [if_neg huv]
      simp only [List.map_cons, ih]
      by_cases hmem : v ∈ rest.map Prod.fst
      · rw [if_pos hmem, if_pos (List.mem_cons.mpr (Or.inr hmem))]
      · have hnotin : v ∉ u :: rest.map Prod.fst := by
          intro hx
          rcases List.mem_cons.mp hx with h | h
          · exact huv h.symm
          · exact hmem h
        rw [if_neg hmem, if_neg hnotin]
        simp

theorem firstDedupAux_cons (seen : List String) (w : String) (ws : List String) :
    firstDedupAux seen (w :: ws) =
      if w ∈ seen then firstDedupAux seen ws else w :: firstDedupAux (w :: seen) ws := rfl

theorem firstDedupAux_congr :
    ∀ (ws : List String) (s1 s2 : List String), (∀ x, x ∈ s1 ↔ x ∈ s2) →
      firstDedupAux s1 ws = firstDedupAux s2 ws := by
  intro ws
  induction ws with
  | nil => intro _ _ _; rfl
  | cons w ws ih =>
    intro s1 s2 h
    rw [firstDedupAux_cons, firstDedupAux_cons]
    by_cases hw : w ∈ s1
    · rw [if_pos hw, if_pos ((h w).mp hw)]
      exact ih s1 s2 h
    · rw [if_neg hw, if_neg (fun hx => hw ((h w).mpr hx))]
      rw [ih (w :: s1) (w :: s2) (by intro x; simp [h x])]

theorem keys_foldl_bump :
    ∀ (ws : List String) (acc : List (String × Nat)),
      (ws.foldl (fun a v => bump v a) acc).map Prod.fst
        = acc.map Prod.fst ++ firstDedupAux (acc.map Prod.fst) ws := by
  intro ws
  induction ws with
  | nil => intro acc; simp [firstDedupAux]
  | cons v ws ih =>
    intro acc
    rw [List.foldl_cons, ih, keys_bump]
    show _ = acc.map Prod.fst ++ firstDedupAux (acc.map Prod.fst) (v :: ws)
    rw [firstDedupAux_cons]
    by_cases hmem : v ∈ acc.map Prod.fst
    · rw [if_pos hmem, if_pos hmem]
    · rw [if_neg hmem, if_neg hmem,
        firstDedupAux_congr ws (acc.map Prod.fst ++ [v]) (v :: acc.map Prod.fst)
          (by intro x; simp; tauto)]
      simp

theorem countList_keys (ws : List String) :
    (countList ws).map Prod.fst = firstDedup ws := by
  rw [show countList ws = ws.foldl (fun a v => bump v a) [] from rfl, keys_foldl_bump]
  rfl

theorem filter_orderedInsert_eq (a : String × Nat) (n : Nat) :
    ∀ l : List (String × Nat), a.2 = n →
      (List.orderedInsert cntGe a l).filter (fun x => x.2 == n)
        = a :: l.filter (fun x => x.2 == n) := by
  intro l ha
  induction l with
  | nil => simp [List.orderedInsert, List.filter, ha]
  | cons b l ih =>
    show (if cntGe a b then a :: b :: l else b :: List.orderedInsert cntGe a l).filter _ = _
    by_cases hab : cntGe a b
    · rw [if_pos hab, List.filter_cons_of_pos (by simp [ha])]
    · rw [if_neg hab]
      have hbn : b.2 ≠ n := fun h => hab (Nat.le_of_eq (h.trans ha.symm))
      rw [List.filter_cons_of_neg (by simp [hbn]), ih,
        List.filter_cons_of_neg (by simp [hbn])]

theorem filter_orderedInsert_ne (a : String × Nat) (n : Nat) :
    ∀ l : List (String × Nat), a.2 ≠ n →
      (List.orderedInsert cntGe a l).filter (fun x => x.2 == n)
        = l.filter (fun x => x.2 == n) := by
  intro l ha
  induction l with
  | nil => simp [List.orderedInsert, ha]
  | cons b l ih =>
    show (if cntGe a b then a :: b :: l else b :: List.orderedInsert cntGe a l).filter _ = _
    by_cases hab : cntGe a b
    · rw [if_pos hab, List.filter_cons_of_neg (by simp [ha])]
    · rw [if_neg hab]
      by_cases hbn : b.2 = n
      · rw [List.filter_cons_of_pos (by simp [hbn]), ih, List.filter_cons_of_pos (by simp [hbn])]
      · rw [List.filter_cons_of_neg (by simp [hbn]), ih, List.filter_cons_of_neg (by simp [hbn])]

theorem filter_sortDesc (n : Nat) :
    ∀ l : List (String × Nat),
      (sortDesc l).filter (fun x => x.2 == n) = l.filter (fun x => x.2 == n) := by
  intro l
  induction l with
  | nil => rfl
  | cons a l ih =>
    show (List.orderedInsert cntGe a (List.insertionSort cntGe l)).filter _ = _
    by_cases ha : a.2 = n
    · rw [filter_orderedInsert_eq a n _ ha,
        show List.insertionSort cntGe l = sortDesc l from rfl, ih,
        List.filter_cons_of_pos (by simp [ha])]
    · rw [filter_orderedInsert_ne a n _ ha,
        show List.insertionSort cntGe l = sortDesc l from rfl, ih,
        List.filter_cons_of_neg (by simp [ha])]

theorem runsByAux_nil (p : Char → Bool) (acc : List Char) :
    runsByAux p acc [] = if acc = [] then [] else [acc.reverse] := rfl

theorem runsByAux_cons (p : Char → Bool) (acc : List Char) (c : Char) (cs : List Char) :
    runsByAux p acc (c :: cs) =
      if p c then runsByAux p (c :: acc) cs
      else if acc = [] then runsByAux p [] cs
      else acc.reverse :: runsByAux p [] cs := rfl

theorem runsByAux_wf (p : Char → Bool) :
    ∀ (cs : List Char) (acc : List Char), (∀ c ∈ acc, p c = true) →
      ∀ r ∈ runsByAux p acc cs, r ≠ [] ∧ ∀ c ∈ r, p c = true := by
  intro cs
  induction cs with
  | nil =>
    intro acc hacc r hr
    rw [runsByAux_nil] at hr
    by_cases h : acc = []
    · rw [if_pos h] at hr
      simp at hr
    · rw [if_neg h] at hr
      simp only [List.mem_singleton] at hr
      subst hr
      refine ⟨by simpa using h, ?_⟩
      intro c hc
      exact hacc c (List.mem_reverse.mp hc)
  | cons c cs ih =>
    intro acc hacc r hr
    rw [runsByAux_cons] at hr
    by_cases hc : p c = true
    · rw [if_pos hc] at hr
      refine ih (c :: acc) ?_ r hr
      intro x hx
      rcases List.mem_cons.mp hx with h | h
      · exact h ▸ hc
      · exact hacc x h
    · rw [if_neg hc] at hr
      by_cases hemp : acc = []
      · rw [if_pos hemp] at hr
        exact ih [] (by simp) r hr
      · rw [if_neg hemp] at hr
        rcases List.mem_cons.mp hr with h | h
        · subst h
          exact ⟨by simpa using hemp, fun x hx => hacc x (List.mem_reverse.mp hx)⟩
        · exact ih [] (by simp) r h

theorem runsByAux_all (p : Char → Bool) :
    ∀ (cs : List Char) (acc : List Char), (∀ c ∈ cs, p c = true) →
      runsByAux p acc cs =
        if acc.reverse ++ cs = [] then [] else [acc.reverse ++ cs] := by
  intro cs
  induction cs with
  | nil =>
    intro acc _
    rw [runsByAux_nil]
    by_cases hacc : acc = []
    · subst hacc; simp
    · rw [if_neg hacc, if_neg (by simp [hacc])]
      simp
  | cons c cs ih =>
    intro acc h
    rw [runsByAux_cons, if_pos (h c (by simp)), ih (c :: acc) (fun x hx => h x (by simp [hx]))]
    rw [if_neg (by simp), if_neg (by simp)]
    simp

theorem letterRuns_all_alpha (cs : List Char) (h : ∀ c ∈ cs, isAsciiAlphaChar c = true)
    (hne : cs ≠ []) : letterRuns cs = [cs] := by
  rw [letterRuns, runsBy, runsByAux_all isAsciiAlphaChar cs [] h]
  simp [hne]

theorem runsByAux_break (p : Char → Bool) (c : Char) (hc : p c = false) :
    ∀ (s t : List Char) (acc : List Char),
      runsByAux p acc (s ++ c :: t) = runsByAux p acc s ++ runsByAux p [] t := by
  intro s
  induction s with
  | nil =>
    intro t acc
    show runsByAux p acc (c :: t) = runsByAux p acc [] ++ runsByAux p [] t
    rw [runsByAux_cons, if_neg (by simp [hc]), runsByAux_nil]
    by_cases hemp : acc = []
    · rw [if_pos hemp, if_pos hemp]
      simp
    · rw [if_neg hemp, if_neg hemp]
      rfl
  | cons d s ih =>
    intro t acc
    show runsByAux p acc (d :: (s ++ c :: t)) = runsByAux p acc (d :: s) ++ runsByAux p [] t
    rw [runsByAux_cons, runsByAux_cons]
    by_cases hd : p d = true
    · rw [if_pos hd, if_pos hd, ih]
    · rw [if_neg hd, if_neg hd]
      by_cases hemp : acc = []
      · rw [if_pos hemp, if_pos hemp, ih]
      · rw [if_neg hemp, if_neg hemp, ih]
        simp

theorem letterRuns_break (s t : List Char) (c : Char)
    (hc : isAsciiAlphaChar c = false) :
    letterRuns (s ++ c :: t) = letterRuns s ++ letterRuns t :=
  runsByAux_break isAsciiAlphaChar c hc s t []

theorem pyTokens_wf (text : String) :
    ∀ w ∈ pyTokens text, 4 ≤ w.toList.length ∧ ∀ c ∈ w.toList, isAsciiAlphaChar c = true := by
  intro w hw
  unfold pyTokens at hw
  rcases List.mem_map.mp hw with ⟨r, hr, hw2⟩
  rcases List.mem_filter.mp hr with ⟨hrmem, hlen⟩
  subst hw2
  refine ⟨by simpa using hlen, ?_⟩
  intro c hc
  exact ((runsByAux_wf isAsciiAlphaChar (pyLower text).toList [] (by simp)) r hrmem).2 c hc

/-- C5: the `keywords` pipeline — lowercase, tokenize into the maximal
ASCII-letter runs of length at least 4 (`letterRuns` splits at every
non-letter and keeps whole all-letter strings intact), count each token
into a first-encounter-ordered frequency list whose counts are the token
multiplicities, and return the first 10 of a permutation of that list that
is sorted by descending count and, on ties (witnessed per count value by an
unchanged `filter`), keeps first-encountered order. -/
theorem C5_keywords_algorithm (text : String) :
    keywords text = ((sortDesc (countList (pyTokens text))).take 10).map Prod.fst
    ∧ pyTokens text
        = ((letterRuns (pyLower text).toList).filter (fun r => 4 ≤ r.length)).map String.mk
    ∧ (∀ w ∈ pyTokens text, 4 ≤ w.toList.length ∧ ∀ c ∈ w.toList, isAsciiAlphaChar c = true)
    ∧ (∀ cs : List Char, (∀ c ∈ cs, isAsciiAlphaChar c = true) → cs ≠ [] →
        letterRuns cs = [cs])
    ∧ (∀ (s t : List Char) (c : Char), isAsciiAlphaChar c = false →
        letterRuns (s ++ c :: t) = letterRuns s ++ letterRuns t)
    ∧ (∀ w, countOf (countList (pyTokens text)) w = (pyTokens text).count w)
    ∧ (countList (pyTokens text)).map Prod.fst = firstDedup (pyTokens text)
    ∧ List.Perm (sortDesc (countList (pyTokens text))) (countList (pyTokens text))
    ∧ List.Sorted cntGe (sortDesc (countList (pyTokens text)))
    ∧ (∀ n, (sortDesc (countList (pyTokens text))).filter (fun x => x.2 == n)
          = (countList (pyTokens text)).filter (fun x => x.2 == n)) :=
  ⟨rfl, rfl, pyTokens_wf text,
   fun cs h hne => letterRuns_all_alpha cs h hne,
   fun s t c hc => letterRuns_break s t c hc,
   countList_count (pyTokens text),
   countList_keys (pyTokens text),
   List.perm_insertionSort cntGe (countList (pyTokens text)),
   List.sorted_insertionSort cntGe (countList (pyTokens text)),
   fun n => filter_sortDesc n (countList (pyTokens text))⟩

/-- Witness for C5: the sorted-keyword output on a concrete text, a whole
all-letter list forming one maximal run, and a non-letter separator
splitting runs. -/
theorem C5_keywords_algorithm_witness :
    keywords "alpha beta alpha" = ["alpha", "beta"]
    ∧ letterRuns ['q', 'r', 's', 't'] = [['q', 'r', 's', 't']]
    ∧ letterRuns (['q', 'r', 's', 't'] ++ ' ' :: ['w', 'x', 'y', 'z'])
        = letterRuns ['q', 'r', 's', 't'] ++ letterRuns ['w', 'x', 'y', 'z'] := by
  refine ⟨?_, ?_, ?_⟩
  · rw [(C5_keywords_algorithm "alpha beta alpha").1]
    decide
  · exact (C5_keywords_algorithm "x").2.2.2.1 ['q', 'r', 's', 't'] (by decide) (by decide)
  · exact (C5_keywords_algorithm "x").2.2.2.2.1 ['q', 'r', 's', 't'] ['w', 'x', 'y', 'z'] ' '
      (by decide)

end ResumeBuilder
